import Mathlib

/-!
Verification of the chunk-proposal engine
(`rollup/internal/controller/watcher/chunk_proposer.go`).

Shallow embedding conventions:
* Go `uint64` values are modelled as `Nat`.  None of the running totals in the
  packing loop can reach `2 ^ 64` for inputs the program can actually receive,
  so wrap-around is not modelled there; the one place where 64-bit
  reinterpretation genuinely matters — the `int64(from)` conversion inside
  `GetL1BlockRangeHash` — is modelled exactly (see `int64OfUint64`).
* `types.Chunk.EstimateL1CommitGas` and the float scaling
  `uint64(p.gasCostIncreaseMultiplier * float64(g))` live outside the sources
  under verification; they are abstracted as explicit function parameters
  (`estimateChunkL1CommitGas`, `overEstimate`), so every theorem below holds
  for all implementations of them.
* Database reads, the oracle network call and Prometheus gauges are modelled
  as explicit inputs/outputs: the fetched block list is an argument, the
  oracle is a function argument (`none` = call failure), and the gauge `Set`
  calls become a `ChunkMetrics` value returned beside the chunk.
-/

namespace ChunkProposer

/-- models one entry of `gethTypes.RowConsumption`: a sub-circuit name together
with its row count. -/
structure SubCircuit where
  name : String
  rowNumber : Nat
deriving DecidableEq, Repr

/-- models the header fields of an L2 block that `proposeChunk` reads:
`Header.Number`, `Header.Time`, `Header.GasUsed`. -/
structure BlockHeader where
  number : Nat
  time : Nat
  gasUsed : Nat
deriving DecidableEq, Repr

/-- models `types.WrappedBlock` as consumed by `proposeChunk`.
`numTransactions` stands for `len(block.Transactions)`;
`estimateL1CommitCalldataSize` stands for the value of
`block.EstimateL1CommitCalldataSize()` (its code is outside the verified
sources, so it is carried as a per-block datum); `rowConsumption = none`
models a nil `*gethTypes.RowConsumption` pointer. -/
structure WrappedBlock where
  header : BlockHeader
  numTransactions : Nat
  estimateL1CommitCalldataSize : Nat
  rowConsumption : Option (List SubCircuit)
  lastAppliedL1Block : Nat
deriving DecidableEq, Repr

/-- models the fields of `types.Chunk` that `proposeChunk` writes:
`Blocks`, `LastAppliedL1Block`, `L1BlockRangeHash` (the 32-byte hash is an
opaque value, modelled as `Nat`). -/
structure Chunk where
  blocks : List WrappedBlock
  lastAppliedL1Block : Nat
  l1BlockRangeHash : Nat
deriving DecidableEq, Repr

/-- models the configured limits of `ChunkProposer`
(`config.ChunkProposerConfig`); the float `gasCostIncreaseMultiplier` is
abstracted separately as the `overEstimate` parameter. -/
structure ChunkProposerConfig where
  maxBlockNumPerChunk : Nat
  maxTxNumPerChunk : Nat
  maxL1CommitGasPerChunk : Nat
  maxL1CommitCalldataSizePerChunk : Nat
  maxRowConsumptionPerChunk : Nat
  chunkTimeoutSec : Nat
deriving DecidableEq, Repr

/-- helper for `crcAdd`: the effect of `(*crc)[name] += n` on an association
list representing the Go map `chunkRowConsumption` (absent keys read as 0). -/
def crcUpdate : List (String × Nat) → String → Nat → List (String × Nat)
  | [], name, n => [(name, n)]
  | (k, v) :: rest, name, n =>
    if k = name then (k, v + n) :: rest else (k, v) :: crcUpdate rest name n

/-- models `chunkRowConsumption.add` on a non-nil row-consumption vector:
accumulates each sub-circuit row count into the per-circuit totals (the nil
check is handled at the call site in the packing loop). -/
def crcAdd (crc : List (String × Nat)) (rc : List SubCircuit) : List (String × Nat) :=
  rc.foldl (fun c sc => crcUpdate c sc.name sc.rowNumber) crc

/-- models `chunkRowConsumption.max`: the largest accumulated value over all
sub-circuits, `0` when the accumulator is empty. -/
def crcMax (crc : List (String × Nat)) : Nat :=
  crc.foldl (fun m kv => if kv.2 > m then kv.2 else m) 0

/-- models the error outcomes of `proposeChunk`.  The four
`firstBlockExceeds...` constructors carry the numeric values interpolated
into the corresponding `fmt.Errorf` format strings.  `emptyChunkPanic`
models the Go runtime panic that indexing `chunk.Blocks[0]` on an empty
slice would raise (reachable only if the loop is entered with no fetched
blocks, which `proposeChunk` rules out). -/
inductive ProposeErr where
  | oracleFailure
  | rowConsumptionNil
  | firstBlockExceedsTxNumLimit (blockNumber totalTxNum limit : Nat)
  | firstBlockExceedsGasLimit (blockNumber commitGas limit : Nat)
  | firstBlockExceedsCalldataLimit (blockNumber calldataSize limit : Nat)
  | firstBlockExceedsRowConsumptionLimit (blockNumber : Nat)
      (crc : List (String × Nat)) (crcMaxVal limit : Nat)
  | emptyChunkPanic
deriving DecidableEq, Repr

/-- models the Prometheus gauge `Set` calls performed when a chunk is
returned; field names follow the gauge fields of `ChunkProposer`. -/
structure ChunkMetrics where
  chunkTxNum : Nat
  chunkEstimateL1CommitGas : Nat
  totalL1CommitCalldataSize : Nat
  maxTxConsumption : Nat
  totalTxGasUsed : Nat
  chunkBlocksNum : Nat
deriving DecidableEq, Repr

/-- the mutable locals of the packing loop in `proposeChunk`:
`chunk.Blocks` plus the five running totals. -/
structure LoopState where
  chunkBlocks : List WrappedBlock
  totalTxGasUsed : Nat
  totalTxNum : Nat
  totalL1CommitCalldataSize : Nat
  totalL1CommitGas : Nat
  crc : List (String × Nat)
deriving DecidableEq, Repr

/-- the packing loop of `proposeChunk` (`for i, block := range blocks` and the
timeout / max-block-count epilogue).  `estimateChunkL1CommitGas` abstracts
`chunk.EstimateL1CommitGas()` — note the source applies it to `chunk.Blocks`
*before* the candidate block is appended; `overEstimate` abstracts
`uint64(p.gasCostIncreaseMultiplier * float64(g))`. -/
def chunkLoop (cfg : ChunkProposerConfig)
    (estimateChunkL1CommitGas : List WrappedBlock → Nat) (overEstimate : Nat → Nat)
    (chunkLastAppliedL1Block chunkL1BlockRangeHash currentTimeSec : Nat) :
    LoopState → Nat → List WrappedBlock → Except ProposeErr (Option (Chunk × ChunkMetrics))
  | s, _, [] =>
    match s.chunkBlocks with
    | [] => .error .emptyChunkPanic
    | b0 :: _ =>
      if b0.header.time + cfg.chunkTimeoutSec < currentTimeSec ∨
          s.chunkBlocks.length = cfg.maxBlockNumPerChunk then
        .ok (some ({ blocks := s.chunkBlocks,
                     lastAppliedL1Block := chunkLastAppliedL1Block,
                     l1BlockRangeHash := chunkL1BlockRangeHash },
                   { chunkTxNum := s.totalTxNum,
                     chunkEstimateL1CommitGas := s.totalL1CommitGas,
                     totalL1CommitCalldataSize := s.totalL1CommitCalldataSize,
                     maxTxConsumption := crcMax s.crc,
                     totalTxGasUsed := s.totalTxGasUsed,
                     chunkBlocksNum := s.chunkBlocks.length }))
      else
        .ok none
  | s, i, block :: rest =>
    let totalTxGasUsed := s.totalTxGasUsed + block.header.gasUsed
    let totalTxNum := s.totalTxNum + block.numTransactions
    let totalL1CommitCalldataSize :=
      s.totalL1CommitCalldataSize + block.estimateL1CommitCalldataSize
    let totalL1CommitGas := estimateChunkL1CommitGas s.chunkBlocks
    let totalOverEstimateL1CommitGas := overEstimate totalL1CommitGas
    match block.rowConsumption with
    | none => .error .rowConsumptionNil
    | some rc =>
      let crc := crcAdd s.crc rc
      let crcMaxVal := crcMax crc
      if totalTxNum > cfg.maxTxNumPerChunk ∨
          totalL1CommitCalldataSize > cfg.maxL1CommitCalldataSizePerChunk ∨
          totalOverEstimateL1CommitGas > cfg.maxL1CommitGasPerChunk ∨
          crcMaxVal > cfg.maxRowConsumptionPerChunk then
        let cutChunk : Except ProposeErr (Option (Chunk × ChunkMetrics)) :=
          .ok (some ({ blocks := s.chunkBlocks,
                       lastAppliedL1Block := chunkLastAppliedL1Block,
                       l1BlockRangeHash := chunkL1BlockRangeHash },
                     { chunkTxNum := s.totalTxNum,
                       chunkEstimateL1CommitGas := s.totalL1CommitGas,
                       totalL1CommitCalldataSize := s.totalL1CommitCalldataSize,
                       maxTxConsumption := crcMax s.crc,
                       totalTxGasUsed := s.totalTxGasUsed,
                       chunkBlocksNum := s.chunkBlocks.length }))
        if i = 0 then
          if totalTxNum > cfg.maxTxNumPerChunk then
            .error (.firstBlockExceedsTxNumLimit block.header.number totalTxNum
              cfg.maxTxNumPerChunk)
          else if totalOverEstimateL1CommitGas > cfg.maxL1CommitGasPerChunk then
            .error (.firstBlockExceedsGasLimit block.header.number totalL1CommitGas
              cfg.maxL1CommitGasPerChunk)
          else if totalL1CommitCalldataSize > cfg.maxL1CommitCalldataSizePerChunk then
            .error (.firstBlockExceedsCalldataLimit block.header.number
              totalL1CommitCalldataSize cfg.maxL1CommitCalldataSizePerChunk)
          else if crcMaxVal > cfg.maxRowConsumptionPerChunk then
            .error (.firstBlockExceedsRowConsumptionLimit block.header.number crc
              crcMaxVal cfg.maxRowConsumptionPerChunk)
          else
            cutChunk
        else
          cutChunk
      else
        chunkLoop cfg estimateChunkL1CommitGas overEstimate chunkLastAppliedL1Block
          chunkL1BlockRangeHash currentTimeSec
          { chunkBlocks := s.chunkBlocks ++ [block],
            totalTxGasUsed := totalTxGasUsed,
            totalTxNum := totalTxNum,
            totalL1CommitCalldataSize := totalL1CommitCalldataSize,
            totalL1CommitGas := totalL1CommitGas,
            crc := crc } (i + 1) rest

/-- models the computation of `l1BlockRangeHashFrom` in `proposeChunk`:
`0` when there is no parent chunk; the parent's `LastAppliedL1Block + 1` when
that value is nonzero; `0` when the parent's value is zero. -/
def l1BlockRangeHashFrom : Option Nat → Nat
  | none => 0
  | some parentLastAppliedL1Block =>
    if parentLastAppliedL1Block ≠ 0 then parentLastAppliedL1Block + 1
    else parentLastAppliedL1Block

/-- models `ChunkProposer.proposeChunk` from the point where the fetched block
list is in hand.  `parentLastAppliedL1Block = none` models `parentChunk ==
nil`; `oracle from to = none` models a failing `GetL1BlockRangeHash` call;
the result pairs the returned chunk with the gauge values set on return. -/
def proposeChunk (cfg : ChunkProposerConfig)
    (estimateChunkL1CommitGas : List WrappedBlock → Nat) (overEstimate : Nat → Nat)
    (oracle : Nat → Nat → Option Nat) (parentLastAppliedL1Block : Option Nat)
    (blocks : List WrappedBlock) (currentTimeSec : Nat) :
    Except ProposeErr (Option (Chunk × ChunkMetrics)) :=
  match blocks.getLast? with
  | none => .ok none
  | some lastBlock =>
    let lastAppliedL1Block := lastBlock.lastAppliedL1Block
    let l1From := l1BlockRangeHashFrom parentLastAppliedL1Block
    match oracle l1From lastAppliedL1Block with
    | none => .error .oracleFailure
    | some l1BlockRangeHash =>
      chunkLoop cfg estimateChunkL1CommitGas overEstimate lastAppliedL1Block
        l1BlockRangeHash currentTimeSec
        { chunkBlocks := [], totalTxGasUsed := 0, totalTxNum := 0,
          totalL1CommitCalldataSize := 0, totalL1CommitGas := 0, crc := [] } 0 blocks

/-- sum of `len(block.Transactions)` over a block list (the value of the
running total `totalTxNum` after admitting exactly these blocks). -/
def sumTxNum (l : List WrappedBlock) : Nat := (l.map (fun b => b.numTransactions)).sum

/-- sum of `block.EstimateL1CommitCalldataSize()` over a block list. -/
def sumCalldata (l : List WrappedBlock) : Nat :=
  (l.map (fun b => b.estimateL1CommitCalldataSize)).sum

/-- sum of `block.Header.GasUsed` over a block list. -/
def sumGasUsed (l : List WrappedBlock) : Nat := (l.map (fun b => b.header.gasUsed)).sum

/-- row-consumption vectors of a block list (`[]` standing in for a nil
pointer, which the theorems exclude by hypothesis). -/
def rcsOf (l : List WrappedBlock) : List (List SubCircuit) :=
  l.map (fun b => b.rowConsumption.getD [])

/-- accumulator contents after `crc.add` has been applied to each vector in
order, starting from the empty accumulator. -/
def crcOfList (rcs : List (List SubCircuit)) : List (String × Nat) := rcs.foldl crcAdd []

/-- value of the loop local `totalL1CommitGas` after admitting exactly the
given blocks: it was last recomputed while the most recent block was still
the candidate, i.e. on the chunk *without* that block. -/
def storedGas (estimateChunkL1CommitGas : List WrappedBlock → Nat) :
    List WrappedBlock → Nat
  | [] => 0
  | l@(_ :: _) => estimateChunkL1CommitGas l.dropLast

/-- the full loop state after the packing loop has admitted exactly `done`. -/
def mkState (estimateChunkL1CommitGas : List WrappedBlock → Nat)
    (done : List WrappedBlock) : LoopState :=
  { chunkBlocks := done,
    totalTxGasUsed := sumGasUsed done,
    totalTxNum := sumTxNum done,
    totalL1CommitCalldataSize := sumCalldata done,
    totalL1CommitGas := storedGas estimateChunkL1CommitGas done,
    crc := crcOfList (rcsOf done) }

/-- the loop's admission check, as the source evaluates it when `done` has
been admitted and `b` is the candidate: tx count, calldata size and row
consumption include `b`; the over-estimated commit gas is computed on the
chunk *without* `b` (the source estimates before appending). -/
def breachOn (cfg : ChunkProposerConfig)
    (estimateChunkL1CommitGas : List WrappedBlock → Nat) (overEstimate : Nat → Nat)
    (done : List WrappedBlock) (b : WrappedBlock) : Prop :=
  sumTxNum done + b.numTransactions > cfg.maxTxNumPerChunk ∨
  sumCalldata done + b.estimateL1CommitCalldataSize >
    cfg.maxL1CommitCalldataSizePerChunk ∨
  overEstimate (estimateChunkL1CommitGas done) > cfg.maxL1CommitGasPerChunk ∨
  crcMax (crcAdd (crcOfList (rcsOf done)) (b.rowConsumption.getD [])) >
    cfg.maxRowConsumptionPerChunk

instance breachOnDec (cfg : ChunkProposerConfig)
    (estimateChunkL1CommitGas : List WrappedBlock → Nat) (overEstimate : Nat → Nat)
    (done : List WrappedBlock) (b : WrappedBlock) :
    Decidable (breachOn cfg estimateChunkL1CommitGas overEstimate done b) := by
  unfold breachOn; infer_instance

/-- every block of `rest` passes the admission check when the loop has
already admitted `done` (so the loop admits all of `rest`). -/
def admitsAll (cfg : ChunkProposerConfig)
    (estimateChunkL1CommitGas : List WrappedBlock → Nat) (overEstimate : Nat → Nat) :
    List WrappedBlock → List WrappedBlock → Prop
  | _, [] => True
  | done, b :: rest =>
    ¬ breachOn cfg estimateChunkL1CommitGas overEstimate done b ∧
      admitsAll cfg estimateChunkL1CommitGas overEstimate (done ++ [b]) rest

instance admitsAllDec (cfg : ChunkProposerConfig)
    (estimateChunkL1CommitGas : List WrappedBlock → Nat) (overEstimate : Nat → Nat) :
    (done rest : List WrappedBlock) →
      Decidable (admitsAll cfg estimateChunkL1CommitGas overEstimate done rest)
  | _, [] => .isTrue trivial
  | done, b :: rest =>
    have : Decidable
        (admitsAll cfg estimateChunkL1CommitGas overEstimate (done ++ [b]) rest) :=
      admitsAllDec cfg estimateChunkL1CommitGas overEstimate (done ++ [b]) rest
    inferInstanceAs (Decidable (¬ _ ∧ _))

/-- models the Go conversion `int64(x)` applied to a `uint64` value `x`
(two's-complement reinterpretation), as performed on `from` and `to` inside
`GetL1BlockRangeHash`. -/
def int64OfUint64 (x : Nat) : Int :=
  if x < 2 ^ 63 then (x : Int) else (x : Int) - 2 ^ 64

/-- models `math.U256Bytes` applied by the ABI encoder to a `*big.Int`
argument of Solidity type `uint256`: the value is reduced into
`[0, 2 ^ 256)` by two's complement. -/
def u256OfInt (v : Int) : Nat := (v % (2 ^ 256 : Int)).toNat

/-- models the `uint256` argument value produced by
`p.l1ViewOracleABI.Pack("blockRangeHash", big.NewInt(int64(from)),
big.NewInt(int64(to)))` for one argument `x`. -/
def packedRangeArg (x : Nat) : Nat := u256OfInt (int64OfUint64 x)

/-- reading a key of the accumulator map, absent keys reading as `0`
(the Go map read `(*crc)[name]`). -/
def crcLookup : List (String × Nat) → String → Nat
  | [], _ => 0
  | (k, v) :: rest, name => if k = name then v else crcLookup rest name

/-- total row contribution of one row-consumption vector to one circuit
name (a vector may mention a name several times). -/
def contribOf : List SubCircuit → String → Nat
  | [], _ => 0
  | sc :: rest, name => (if sc.name = name then sc.rowNumber else 0) + contribOf rest name

/-- total row contribution of a sequence of vectors to one circuit name:
the per-circuit sum the accumulator is expected to hold. -/
def sumContrib (rcs : List (List SubCircuit)) (name : String) : Nat :=
  (rcs.map (fun rc => contribOf rc name)).sum

/-- Modelled from the spec: the admission check as the spec words it, with
the L1-commit-gas total "recomputed from the entire prospective chunk" —
that is, including the candidate block at position `k` — before scaling.
Used only to compare the spec's reading against the source behaviour. -/
def specBreachAt (cfg : ChunkProposerConfig)
    (estimateChunkL1CommitGas : List WrappedBlock → Nat) (overEstimate : Nat → Nat)
    (blocks : List WrappedBlock) (k : Nat) : Prop :=
  sumTxNum (blocks.take (k + 1)) > cfg.maxTxNumPerChunk ∨
  sumCalldata (blocks.take (k + 1)) > cfg.maxL1CommitCalldataSizePerChunk ∨
  overEstimate (estimateChunkL1CommitGas (blocks.take (k + 1))) >
    cfg.maxL1CommitGasPerChunk ∨
  crcMax (crcOfList (rcsOf (blocks.take (k + 1)))) > cfg.maxRowConsumptionPerChunk

instance specBreachAtDec (cfg : ChunkProposerConfig)
    (estimateChunkL1CommitGas : List WrappedBlock → Nat) (overEstimate : Nat → Nat)
    (blocks : List WrappedBlock) (k : Nat) :
    Decidable (specBreachAt cfg estimateChunkL1CommitGas overEstimate blocks k) := by
  unfold specBreachAt; infer_instance

/-- a small well-formed block used as concrete input in witnesses. -/
def wBlk : WrappedBlock :=
  { header := { number := 1, time := 100, gasUsed := 5 }, numTransactions := 1,
    estimateL1CommitCalldataSize := 2, rowConsumption := some [⟨"A", 3⟩],
    lastAppliedL1Block := 7 }

/-- first block of the two-block concrete scenarios. -/
def bA : WrappedBlock :=
  { header := { number := 1, time := 10, gasUsed := 1 }, numTransactions := 1,
    estimateL1CommitCalldataSize := 1, rowConsumption := some [⟨"A", 1⟩],
    lastAppliedL1Block := 5 }

/-- second block of the two-block concrete scenarios; note its
`lastAppliedL1Block` differs from `bA`'s. -/
def bB : WrappedBlock :=
  { header := { number := 2, time := 11, gasUsed := 1 }, numTransactions := 1,
    estimateL1CommitCalldataSize := 1, rowConsumption := some [⟨"A", 1⟩],
    lastAppliedL1Block := 9 }

/-- trivial commit-gas estimator used in witnesses (one unit per block). -/
def gEw : List WrappedBlock → Nat := fun l => l.length

/-- commit-gas estimator charging 60 gas per block, used in the commit-gas
scenarios: a one-block chunk estimates 60, which doubled exceeds a 100 cap. -/
def gEc2 : List WrappedBlock → Nat := fun l => 60 * l.length

/-- superadditive commit-gas estimator: cheap up to one block, expensive
from two blocks on (commit gas is specified to have super-linear
interaction effects). -/
def gEc3 : List WrappedBlock → Nat := fun l => if 2 ≤ l.length then 200 else 10 * l.length

/-- over-estimate scaling used in concrete scenarios: multiplier 2.0. -/
def oEw : Nat → Nat := fun g => 2 * g

/-- deterministic oracle used in concrete scenarios: hash of `[from, to]`
is `from * 1000 + to`, so the resolved range is visible in the hash. -/
def orW : Nat → Nat → Option Nat := fun f t => some (f * 1000 + t)

/-- config with a one-block capacity cap, generous limits, 50s timeout. -/
def cfgW : ChunkProposerConfig :=
  { maxBlockNumPerChunk := 1, maxTxNumPerChunk := 10, maxL1CommitGasPerChunk := 100,
    maxL1CommitCalldataSizePerChunk := 100, maxRowConsumptionPerChunk := 100,
    chunkTimeoutSec := 50 }

/-- like `cfgW` but with room for five blocks per chunk. -/
def cfgW5 : ChunkProposerConfig :=
  { maxBlockNumPerChunk := 5, maxTxNumPerChunk := 10, maxL1CommitGasPerChunk := 100,
    maxL1CommitCalldataSizePerChunk := 100, maxRowConsumptionPerChunk := 100,
    chunkTimeoutSec := 50 }

/-- config whose tx-count limit (1) is breached by the second block. -/
def cfgTx : ChunkProposerConfig :=
  { maxBlockNumPerChunk := 2, maxTxNumPerChunk := 1, maxL1CommitGasPerChunk := 100,
    maxL1CommitCalldataSizePerChunk := 1000, maxRowConsumptionPerChunk := 1000,
    chunkTimeoutSec := 1000 }

/-- config with a 100-gas commit cap and otherwise generous limits. -/
def cfgC2 : ChunkProposerConfig :=
  { maxBlockNumPerChunk := 10, maxTxNumPerChunk := 100, maxL1CommitGasPerChunk := 100,
    maxL1CommitCalldataSizePerChunk := 1000, maxRowConsumptionPerChunk := 1000,
    chunkTimeoutSec := 1000 }

/-- config with a 100-gas commit cap and a two-block capacity cap. -/
def cfgC3 : ChunkProposerConfig :=
  { maxBlockNumPerChunk := 2, maxTxNumPerChunk := 100, maxL1CommitGasPerChunk := 100,
    maxL1CommitCalldataSizePerChunk := 1000, maxRowConsumptionPerChunk := 1000,
    chunkTimeoutSec := 1000 }

/-- config with a 100-gas commit cap and a one-block capacity cap. -/
def cfgC4 : ChunkProposerConfig :=
  { maxBlockNumPerChunk := 1, maxTxNumPerChunk := 100, maxL1CommitGasPerChunk := 100,
    maxL1CommitCalldataSizePerChunk := 1000, maxRowConsumptionPerChunk := 1000,
    chunkTimeoutSec := 1000 }

instance exceptDecEq {ε α : Type} [DecidableEq ε] [DecidableEq α] :
    DecidableEq (Except ε α)
  | .error a, .error b =>
    if h : a = b then .isTrue (by rw [h]) else .isFalse (fun hh => by cases hh; exact h rfl)
  | .error _, .ok _ => .isFalse (fun hh => by cases hh)
  | .ok _, .error _ => .isFalse (fun hh => by cases hh)
  | .ok a, .ok b =>
    if h : a = b then .isTrue (by rw [h]) else .isFalse (fun hh => by cases hh; exact h rfl)

/-- gauge values reported when the chunk consisting exactly of `done` is
returned (both at an in-loop cut and at the timeout / capacity epilogue). -/
def metricsOf (estimateChunkL1CommitGas : List WrappedBlock → Nat)
    (done : List WrappedBlock) : ChunkMetrics :=
  { chunkTxNum := sumTxNum done,
    chunkEstimateL1CommitGas := storedGas estimateChunkL1CommitGas done,
    totalL1CommitCalldataSize := sumCalldata done,
    maxTxConsumption := crcMax (crcOfList (rcsOf done)),
    totalTxGasUsed := sumGasUsed done,
    chunkBlocksNum := done.length }

theorem sumTxNum_append (d : List WrappedBlock) (b : WrappedBlock) :
    sumTxNum (d ++ [b]) = sumTxNum d + b.numTransactions := by
  simp [sumTxNum]

theorem sumCalldata_append (d : List WrappedBlock) (b : WrappedBlock) :
    sumCalldata (d ++ [b]) = sumCalldata d + b.estimateL1CommitCalldataSize := by
  simp [sumCalldata]

theorem sumGasUsed_append (d : List WrappedBlock) (b : WrappedBlock) :
    sumGasUsed (d ++ [b]) = sumGasUsed d + b.header.gasUsed := by
  simp [sumGasUsed]

theorem storedGas_append (gE : List WrappedBlock → Nat) (d : List WrappedBlock)
    (b : WrappedBlock) : storedGas gE (d ++ [b]) = gE d := by
  cases d with
  | nil => simp [storedGas]
  | cons x xs =>
    simp only [storedGas, List.cons_append]
    rw [show x :: (xs ++ [b]) = (x :: xs) ++ [b] from rfl, List.dropLast_concat]

theorem crcOf_append (d : List WrappedBlock) (b : WrappedBlock) (rc : List SubCircuit)
    (hrc : b.rowConsumption = some rc) :
    crcOfList (rcsOf (d ++ [b])) = crcAdd (crcOfList (rcsOf d)) rc := by
  simp [rcsOf, crcOfList, hrc]

theorem mkState_nil (gE : List WrappedBlock → Nat) :
    mkState gE [] =
      { chunkBlocks := [], totalTxGasUsed := 0, totalTxNum := 0,
        totalL1CommitCalldataSize := 0, totalL1CommitGas := 0, crc := [] } := rfl

theorem mkState_append (gE : List WrappedBlock → Nat) (d : List WrappedBlock)
    (b : WrappedBlock) (rc : List SubCircuit) (hrc : b.rowConsumption = some rc) :
    mkState gE (d ++ [b]) =
      { chunkBlocks := d ++ [b],
        totalTxGasUsed := sumGasUsed d + b.header.gasUsed,
        totalTxNum := sumTxNum d + b.numTransactions,
        totalL1CommitCalldataSize := sumCalldata d + b.estimateL1CommitCalldataSize,
        totalL1CommitGas := gE d,
        crc := crcAdd (crcOfList (rcsOf d)) rc } := by
  simp [mkState, sumTxNum_append, sumCalldata_append, sumGasUsed_append,
    storedGas_append, crcOf_append d b rc hrc]

theorem chunkLoop_cons_step (cfg : ChunkProposerConfig)
    (gE : List WrappedBlock → Nat) (oE : Nat → Nat) (cl ch now : Nat)
    (done : List WrappedBlock) (b : WrappedBlock) (rest : List WrappedBlock)
    (rc : List SubCircuit) (hrc : b.rowConsumption = some rc)
    (hnb : ¬ breachOn cfg gE oE done b) :
    chunkLoop cfg gE oE cl ch now (mkState gE done) done.length (b :: rest) =
      chunkLoop cfg gE oE cl ch now (mkState gE (done ++ [b])) (done.length + 1) rest := by
  have hnb2 : ¬ (sumTxNum done + b.numTransactions > cfg.maxTxNumPerChunk ∨
      sumCalldata done + b.estimateL1CommitCalldataSize >
        cfg.maxL1CommitCalldataSizePerChunk ∨
      oE (gE done) > cfg.maxL1CommitGasPerChunk ∨
      crcMax (crcAdd (crcOfList (rcsOf done)) rc) > cfg.maxRowConsumptionPerChunk) := by
    simpa [breachOn, hrc] using hnb
  rw [mkState_append gE done b rc hrc]
  simp only [chunkLoop, mkState, hrc]
  rw [if_neg hnb2]

theorem chunkLoop_cons_cut (cfg : ChunkProposerConfig)
    (gE : List WrappedBlock → Nat) (oE : Nat → Nat) (cl ch now : Nat)
    (done : List WrappedBlock) (b : WrappedBlock) (rest : List WrappedBlock)
    (rc : List SubCircuit) (hrc : b.rowConsumption = some rc)
    (hbr : breachOn cfg gE oE done b) (hne : done ≠ []) :
    chunkLoop cfg gE oE cl ch now (mkState gE done) done.length (b :: rest) =
      .ok (some ({ blocks := done, lastAppliedL1Block := cl, l1BlockRangeHash := ch },
                 metricsOf gE done)) := by
  have hbr2 : sumTxNum done + b.numTransactions > cfg.maxTxNumPerChunk ∨
      sumCalldata done + b.estimateL1CommitCalldataSize >
        cfg.maxL1CommitCalldataSizePerChunk ∨
      oE (gE done) > cfg.maxL1CommitGasPerChunk ∨
      crcMax (crcAdd (crcOfList (rcsOf done)) rc) > cfg.maxRowConsumptionPerChunk := by
    simpa [breachOn, hrc] using hbr
  have hlen : ¬ done.length = 0 := by
    simpa [List.length_eq_zero] using hne
  simp only [chunkLoop, mkState, hrc]
  rw [if_pos hbr2, if_neg hlen]
  simp [metricsOf]

theorem chunkLoop_exhaust (cfg : ChunkProposerConfig)
    (gE : List WrappedBlock → Nat) (oE : Nat → Nat) (cl ch now : Nat)
    (done : List WrappedBlock) (i : Nat) (b0 : WrappedBlock) (tl : List WrappedBlock)
    (hd : done = b0 :: tl) :
    chunkLoop cfg gE oE cl ch now (mkState gE done) i [] =
      (if b0.header.time + cfg.chunkTimeoutSec < now ∨
          done.length = cfg.maxBlockNumPerChunk then
        .ok (some ({ blocks := done, lastAppliedL1Block := cl, l1BlockRangeHash := ch },
                   metricsOf gE done))
      else .ok none) := by
  subst hd
  simp only [chunkLoop, mkState, metricsOf]

theorem chunkLoop_admit_walk (cfg : ChunkProposerConfig)
    (gE : List WrappedBlock → Nat) (oE : Nat → Nat) (cl ch now : Nat) :
    ∀ (rest done : List WrappedBlock), admitsAll cfg gE oE done rest →
      (∀ x ∈ rest, x.rowConsumption.isSome) →
      chunkLoop cfg gE oE cl ch now (mkState gE done) done.length rest =
        chunkLoop cfg gE oE cl ch now (mkState gE (done ++ rest))
          (done ++ rest).length []
  | [], done, _, _ => by simp
  | b :: rs, done, hadm, hsome => by
    have hnb : ¬ breachOn cfg gE oE done b := hadm.1
    have hadm' : admitsAll cfg gE oE (done ++ [b]) rs := hadm.2
    obtain ⟨rc, hrc⟩ := Option.isSome_iff_exists.mp (hsome b (by simp))
    rw [chunkLoop_cons_step cfg gE oE cl ch now done b rs rc hrc hnb]
    have hlen : done.length + 1 = (done ++ [b]).length := by simp
    rw [hlen]
    have := chunkLoop_admit_walk cfg gE oE cl ch now rs (done ++ [b]) hadm'
      (fun x hx => hsome x (by simp [hx]))
    simpa [List.append_assoc] using this

theorem chunkLoop_cut_walk (cfg : ChunkProposerConfig)
    (gE : List WrappedBlock → Nat) (oE : Nat → Nat) (cl ch now : Nat)
    (b : WrappedBlock) (rest : List WrappedBlock) (rc : List SubCircuit)
    (hrc : b.rowConsumption = some rc) :
    ∀ (pre done : List WrappedBlock), admitsAll cfg gE oE done pre →
      (∀ x ∈ pre, x.rowConsumption.isSome) →
      breachOn cfg gE oE (done ++ pre) b → done ++ pre ≠ [] →
      chunkLoop cfg gE oE cl ch now (mkState gE done) done.length (pre ++ b :: rest) =
        .ok (some ({ blocks := done ++ pre, lastAppliedL1Block := cl,
                     l1BlockRangeHash := ch }, metricsOf gE (done ++ pre)))
  | [], done, _, _, hbr, hne => by
    simpa using chunkLoop_cons_cut cfg gE oE cl ch now done b rest rc hrc
      (by simpa using hbr) (by simpa using hne)
  | p :: ps, done, hadm, hsome, hbr, _ => by
    have hnb : ¬ breachOn cfg gE oE done p := hadm.1
    have hadm' : admitsAll cfg gE oE (done ++ [p]) ps := hadm.2
    obtain ⟨prc, hprc⟩ := Option.isSome_iff_exists.mp (hsome p (by simp))
    have hstep := chunkLoop_cons_step cfg gE oE cl ch now done p (ps ++ b :: rest)
      prc hprc hnb
    rw [List.cons_append, hstep]
    have hlen : done.length + 1 = (done ++ [p]).length := by simp
    rw [hlen]
    have := chunkLoop_cut_walk cfg gE oE cl ch now b rest rc hrc ps (done ++ [p]) hadm'
      (fun x hx => hsome x (by simp [hx]))
      (by simpa [List.append_assoc] using hbr) (by simp)
    simpa [List.append_assoc] using this

theorem chunkLoop_some_nonempty (cfg : ChunkProposerConfig)
    (gE : List WrappedBlock → Nat) (oE : Nat → Nat) (cl ch now : Nat) :
    ∀ (rest : List WrappedBlock) (s : LoopState) (i : Nat),
      i = s.chunkBlocks.length → ∀ c m,
      chunkLoop cfg gE oE cl ch now s i rest = .ok (some (c, m)) → c.blocks ≠ []
  | [], s, i, _, c, m, h => by
    simp only [chunkLoop] at h
    split at h
    · simp at h
    · split at h
      · rename_i heq hcond
        simp only [Except.ok.injEq, Option.some.injEq, Prod.mk.injEq] at h
        obtain ⟨hc, -⟩ := h
        rw [← hc]
        show s.chunkBlocks ≠ []
        rw [heq]
        simp
      · simp at h
  | b :: rest, s, i, hi, c, m, h => by
    simp only [chunkLoop] at h
    split at h
    · simp at h
    · split at h
      · rename_i hbr
        split at h
        · split at h
          · simp at h
          · split at h
            · simp at h
            · split at h
              · simp at h
              · split at h
                · simp at h
                · rename_i h1 h2 h3 h4
                  rcases hbr with hh | hh | hh | hh
                  · exact absurd hh h1
                  · exact absurd hh h3
                  · exact absurd hh h2
                  · exact absurd hh h4
        · rename_i hz
          simp only [Except.ok.injEq, Option.some.injEq, Prod.mk.injEq] at h
          obtain ⟨hc, -⟩ := h
          rw [← hc]
          show s.chunkBlocks ≠ []
          intro hemp
          exact hz (by rw [hi, hemp]; rfl)
      · exact chunkLoop_some_nonempty cfg gE oE cl ch now rest _ (i + 1)
          (by simp [hi]) c m h

theorem crcLookup_update (l : List (String × Nat)) (n : String) (x : Nat) (m : String) :
    crcLookup (crcUpdate l n x) m =
      if n = m then crcLookup l m + x else crcLookup l m := by
  induction l with
  | nil =>
    simp only [crcUpdate, crcLookup]
    by_cases h : n = m <;> simp [h]
  | cons kv rest ih =>
    obtain ⟨k, v⟩ := kv
    simp only [crcUpdate]
    by_cases hkn : k = n
    · subst hkn
      simp only [if_pos rfl, crcLookup]
      by_cases hkm : k = m
      · simp [hkm]
      · simp [crcLookup, hkm]
    · rw [if_neg hkn]
      simp only [crcLookup]
      by_cases hkm : k = m
      · subst hkm
        rw [if_pos rfl, if_pos rfl, if_neg (fun h => hkn h.symm)]
      · rw [if_neg hkm, if_neg hkm, ih]

theorem crcLookup_add (l : List (String × Nat)) (rc : List SubCircuit) (m : String) :
    crcLookup (crcAdd l rc) m = crcLookup l m + contribOf rc m := by
  induction rc generalizing l with
  | nil => simp [crcAdd, contribOf]
  | cons sc rest ih =>
    simp only [crcAdd, List.foldl_cons] at *
    rw [ih (crcUpdate l sc.name sc.rowNumber), crcLookup_update]
    simp only [contribOf]
    by_cases h : sc.name = m
    · simp [h]
      omega
    · simp [h]

theorem crcLookup_ofList (rcs : List (List SubCircuit)) (m : String) :
    crcLookup (crcOfList rcs) m = sumContrib rcs m := by
  suffices h : ∀ l, crcLookup (rcs.foldl crcAdd l) m = crcLookup l m + sumContrib rcs m by
    simpa [crcOfList, crcLookup] using h []
  induction rcs with
  | nil => intro l; simp [sumContrib]
  | cons rc rest ih =>
    intro l
    simp only [List.foldl_cons]
    rw [ih, crcLookup_add]
    simp [sumContrib]
    omega

theorem crcMax_fold_ge (l : List (String × Nat)) :
    ∀ a : Nat, a ≤ l.foldl (fun m kv => if kv.2 > m then kv.2 else m) a ∧
      ∀ kv ∈ l, kv.2 ≤ l.foldl (fun m kv => if kv.2 > m then kv.2 else m) a := by
  induction l with
  | nil => intro a; exact ⟨le_refl a, by simp⟩
  | cons kv rest ih =>
    intro a
    simp only [List.foldl_cons]
    constructor
    · refine le_trans ?_ (ih _).1
      by_cases h : kv.2 > a <;> simp [h]
      omega
    · intro x hx
      rcases List.mem_cons.mp hx with h | h
      · subst h
        refine le_trans ?_ (ih _).1
        by_cases h2 : x.2 > a
        · simp [h2]
        · simp only [if_neg h2]
          omega
      · exact (ih _).2 x h

theorem crcMax_fold_mem (l : List (String × Nat)) :
    ∀ a : Nat, l.foldl (fun m kv => if kv.2 > m then kv.2 else m) a = a ∨
      ∃ kv ∈ l, l.foldl (fun m kv => if kv.2 > m then kv.2 else m) a = kv.2 := by
  induction l with
  | nil => intro a; exact .inl rfl
  | cons kv rest ih =>
    intro a
    simp only [List.foldl_cons]
    by_cases h : kv.2 > a
    · rw [if_pos h]
      rcases ih kv.2 with he | ⟨x, hx, he⟩
      · exact .inr ⟨kv, by simp, he⟩
      · exact .inr ⟨x, by simp [hx], he⟩
    · rw [if_neg h]
      rcases ih a with he | ⟨x, hx, he⟩
      · exact .inl he
      · exact .inr ⟨x, by simp [hx], he⟩

/-- C9: `max()` returns the largest per-circuit accumulated total — each
accumulated entry is the per-circuit sum of the added vectors, `max()`
bounds every entry and is attained by one of them (so it is the maximum
over circuit names, not the sum across circuits) — it returns zero on an
empty accumulator, and after adding two blocks each contributing 10 rows
to circuit A and 5 rows to circuit B it returns 20. -/
theorem c9_row_consumption_max :
    crcMax [] = 0 ∧
    (∀ rcs name, crcLookup (crcOfList rcs) name = sumContrib rcs name) ∧
    (∀ l, ∀ kv ∈ l, kv.2 ≤ crcMax l) ∧
    (∀ l, crcMax l = 0 ∨ ∃ kv ∈ l, crcMax l = kv.2) ∧
    crcMax (crcOfList [[⟨"A", 10⟩, ⟨"B", 5⟩], [⟨"A", 10⟩, ⟨"B", 5⟩]]) = 20 := by
  refine ⟨rfl, crcLookup_ofList, ?_, ?_, by decide⟩
  · intro l kv hkv
    exact (crcMax_fold_ge l 0).2 kv hkv
  · intro l
    exact crcMax_fold_mem l 0

/-- C9 witness: instantiating the bound conjunct at a one-entry accumulator. -/
theorem c9_witness : (("A", 10) : String × Nat).2 ≤ crcMax [("A", 10)] :=
  c9_row_consumption_max.2.2.1 [("A", 10)] ("A", 10) (by simp)

/-- C10: every chunk returned by `proposeChunk` contains at least one
block; no execution path yields a non-nil chunk with an empty block list. -/
theorem c10_chunk_never_empty (cfg : ChunkProposerConfig)
    (gE : List WrappedBlock → Nat) (oE : Nat → Nat) (oracle : Nat → Nat → Option Nat)
    (parent : Option Nat) (blocks : List WrappedBlock) (now : Nat)
    (c : Chunk) (m : ChunkMetrics)
    (h : proposeChunk cfg gE oE oracle parent blocks now = .ok (some (c, m))) :
    c.blocks ≠ [] := by
  simp only [proposeChunk] at h
  split at h
  · simp at h
  · split at h
    · simp at h
    · refine chunkLoop_some_nonempty cfg gE oE _ _ now blocks _ 0 ?_ c m h
      rfl

/-- C10 witness: a concrete run that does return a chunk, whose block list
is then nonempty. -/
theorem c10_witness :
    ({ blocks := [wBlk], lastAppliedL1Block := 7, l1BlockRangeHash := 4007 } : Chunk).blocks
      ≠ [] :=
  c10_chunk_never_empty cfgW gEw oEw orW (some 3) [wBlk] 0
    { blocks := [wBlk], lastAppliedL1Block := 7, l1BlockRangeHash := 4007 }
    { chunkTxNum := 1, chunkEstimateL1CommitGas := 0, totalL1CommitCalldataSize := 2,
      maxTxConsumption := 3, totalTxGasUsed := 5, chunkBlocksNum := 1 } (by decide)

/-- C7: the range-hash `from` height is the parent chunk's
`lastAppliedL1Block + 1` when that value is nonzero, and `0` when the
parent's value is zero or there is no parent; moreover `proposeChunk`
consults the oracle only at that `from` height (two oracles agreeing there
yield identical results). -/
theorem c7_range_hash_from (p : Nat) :
    l1BlockRangeHashFrom none = 0 ∧
    l1BlockRangeHashFrom (some 0) = 0 ∧
    (p ≠ 0 → l1BlockRangeHashFrom (some p) = p + 1) ∧
    (∀ cfg gE oE (o1 o2 : Nat → Nat → Option Nat) parent blocks now,
      (∀ t, o1 (l1BlockRangeHashFrom parent) t = o2 (l1BlockRangeHashFrom parent) t) →
      proposeChunk cfg gE oE o1 parent blocks now =
        proposeChunk cfg gE oE o2 parent blocks now) := by
  refine ⟨rfl, rfl, fun hp => by simp [l1BlockRangeHashFrom, hp], ?_⟩
  intro cfg gE oE o1 o2 parent blocks now hagree
  cases hlast : blocks.getLast? with
  | none => simp [proposeChunk, hlast]
  | some lastB =>
    simp only [proposeChunk, hlast]
    rw [hagree]

/-- C7 witness: instantiating the nonzero-parent case at 5. -/
theorem c7_witness : l1BlockRangeHashFrom (some 5) = 6 :=
  (c7_range_hash_from 5).2.2.1 (by decide)

set_option maxRecDepth 20000 in
/-- C8 counterexample: the claim asserts the packed `uint256` argument
equals the input for the full `uint64` range, but at `2 ^ 63` the Go
`int64` conversion makes the encoder produce `2 ^ 256 - 2 ^ 63` instead. -/
theorem c8_counterexample :
    packedRangeArg (2 ^ 63) ≠ 2 ^ 63 ∧ packedRangeArg (2 ^ 63) = 2 ^ 256 - 2 ^ 63 := by
  constructor
  · decide
  · decide

/-- C8 (amended): the packed argument equals the input only below `2 ^ 63`;
for `2 ^ 63 ≤ x < 2 ^ 64` the two's-complement reinterpretation makes it
`2 ^ 256 - 2 ^ 64 + x`. -/
theorem c8_amended (x : Nat) :
    (x < 2 ^ 63 → packedRangeArg x = x) ∧
    (2 ^ 63 ≤ x → x < 2 ^ 64 → packedRangeArg x = 2 ^ 256 - 2 ^ 64 + x) := by
  constructor
  · intro h
    simp only [packedRangeArg, int64OfUint64, u256OfInt, if_pos h]
    rw [Int.emod_eq_of_lt (by positivity) (by exact_mod_cast lt_trans h (by norm_num))]
    exact Int.toNat_natCast x
  · intro h1 h2
    simp only [packedRangeArg, int64OfUint64, u256OfInt, if_neg (not_lt.mpr h1)]
    have hx0 : (0 : Int) ≤ (x : Int) := Int.natCast_nonneg x
    have hx64 : (x : Int) < 2 ^ 64 := by exact_mod_cast h2
    have hmod : ((x : Int) - 2 ^ 64) % 2 ^ 256 = (x : Int) - 2 ^ 64 + 2 ^ 256 := by
      have hsplit : ((x : Int) - 2 ^ 64) % 2 ^ 256 =
          ((x : Int) - 2 ^ 64 + 2 ^ 256 + 2 ^ 256 * (-1)) % 2 ^ 256 := by
        ring_nf
      rw [hsplit, Int.add_mul_emod_self_left]
      refine Int.emod_eq_of_lt (by omega) (by omega)
    rw [hmod]
    have hcast : (x : Int) - 2 ^ 64 + 2 ^ 256 = ((2 ^ 256 - 2 ^ 64 + x : Nat) : Int) := by
      push_cast
      omega
    rw [hcast, Int.toNat_natCast]

/-- C8 witness: the in-range case at 5. -/
theorem c8_witness : packedRangeArg 5 = 5 := (c8_amended 5).1 (by decide)

/-- C6: when every fetched block is admitted without breaching a limit and
either the first block's timestamp plus the timeout lies in the past or the
number of admitted blocks equals `maxBlockNumPerChunk`, `proposeChunk`
returns a chunk containing all of the fetched blocks (either liveness
condition alone suffices). -/
theorem c6_liveness_triggers (cfg : ChunkProposerConfig) (gE : List WrappedBlock → Nat)
    (oE : Nat → Nat) (oracle : Nat → Nat → Option Nat) (parent : Option Nat)
    (blocks : List WrappedBlock) (now : Nat) (lastB b0 : WrappedBlock) (hsh : Nat)
    (hlast : blocks.getLast? = some lastB)
    (hhead : blocks.head? = some b0)
    (hor : oracle (l1BlockRangeHashFrom parent) lastB.lastAppliedL1Block = some hsh)
    (hsome : ∀ x ∈ blocks, x.rowConsumption.isSome)
    (hadm : admitsAll cfg gE oE [] blocks)
    (hlive : b0.header.time + cfg.chunkTimeoutSec < now ∨
      blocks.length = cfg.maxBlockNumPerChunk) :
    proposeChunk cfg gE oE oracle parent blocks now =
      .ok (some ({ blocks := blocks, lastAppliedL1Block := lastB.lastAppliedL1Block,
                   l1BlockRangeHash := hsh }, metricsOf gE blocks)) := by
  obtain ⟨tl, htl⟩ : ∃ tl, blocks = b0 :: tl := by
    cases hb : blocks with
    | nil => rw [hb] at hhead; simp at hhead
    | cons x xs =>
      rw [hb] at hhead
      simp only [List.head?_cons, Option.some.injEq] at hhead
      exact ⟨xs, by rw [hhead]⟩
  simp only [proposeChunk, hlast, hor]
  rw [← mkState_nil gE]
  have hwalk := chunkLoop_admit_walk cfg gE oE lastB.lastAppliedL1Block hsh now blocks []
    hadm hsome
  simp only [List.nil_append, List.length_nil] at hwalk
  rw [hwalk, chunkLoop_exhaust cfg gE oE lastB.lastAppliedL1Block hsh now blocks
    blocks.length b0 tl htl, if_pos hlive]

/-- C6 witness: a single in-limit block under a one-block capacity cap is
returned as a chunk although its timeout has not elapsed. -/
theorem c6_witness :
    proposeChunk cfgW gEw oEw orW (some 3) [wBlk] 0 =
      .ok (some ({ blocks := [wBlk], lastAppliedL1Block := 7, l1BlockRangeHash := 4007 },
                 metricsOf gEw [wBlk])) :=
  c6_liveness_triggers cfgW gEw oEw orW (some 3) [wBlk] 0 wBlk wBlk 4007
    (by decide) (by decide) (by decide) (by decide) (by decide) (by decide)

/-- C5 counterexample: the claim allows block count *equal to*
`maxBlockNumPerChunk` while asserting no chunk is produced, but with one
in-limit block, a one-block capacity cap and an unexpired timeout the
source does produce a chunk (the capacity trigger fires). -/
theorem c5_counterexample :
    [wBlk].length ≤ cfgW.maxBlockNumPerChunk ∧
    120 < wBlk.header.time + cfgW.chunkTimeoutSec ∧
    admitsAll cfgW gEw oEw [] [wBlk] ∧
    ¬ specBreachAt cfgW gEw oEw [wBlk] 0 ∧
    proposeChunk cfgW gEw oEw orW (some 3) [wBlk] 120 =
      .ok (some ({ blocks := [wBlk], lastAppliedL1Block := 7, l1BlockRangeHash := 4007 },
                 { chunkTxNum := 1, chunkEstimateL1CommitGas := 0,
                   totalL1CommitCalldataSize := 2, maxTxConsumption := 3,
                   totalTxGasUsed := 5, chunkBlocksNum := 1 })) := by
  refine ⟨by decide, by decide, by decide, by decide, by decide⟩

/-- C5 (amended): when every fetched block stays within the limits, the
block count is *strictly below* `maxBlockNumPerChunk`, and the first
block's timeout has not expired, `proposeChunk` produces no chunk and no
error. -/
theorem c5_amended (cfg : ChunkProposerConfig) (gE : List WrappedBlock → Nat)
    (oE : Nat → Nat) (oracle : Nat → Nat → Option Nat) (parent : Option Nat)
    (blocks : List WrappedBlock) (now : Nat) (lastB b0 : WrappedBlock) (hsh : Nat)
    (hlast : blocks.getLast? = some lastB)
    (hhead : blocks.head? = some b0)
    (hor : oracle (l1BlockRangeHashFrom parent) lastB.lastAppliedL1Block = some hsh)
    (hsome : ∀ x ∈ blocks, x.rowConsumption.isSome)
    (hadm : admitsAll cfg gE oE [] blocks)
    (hlen : blocks.length < cfg.maxBlockNumPerChunk)
    (htime : ¬ b0.header.time + cfg.chunkTimeoutSec < now) :
    proposeChunk cfg gE oE oracle parent blocks now = .ok none := by
  obtain ⟨tl, htl⟩ : ∃ tl, blocks = b0 :: tl := by
    cases hb : blocks with
    | nil => rw [hb] at hhead; simp at hhead
    | cons x xs =>
      rw [hb] at hhead
      simp only [List.head?_cons, Option.some.injEq] at hhead
      exact ⟨xs, by rw [hhead]⟩
  have hcond : ¬ (b0.header.time + cfg.chunkTimeoutSec < now ∨
      blocks.length = cfg.maxBlockNumPerChunk) := by
    rintro (h | h)
    · exact htime h
    · omega
  simp only [proposeChunk, hlast, hor]
  rw [← mkState_nil gE]
  have hwalk := chunkLoop_admit_walk cfg gE oE lastB.lastAppliedL1Block hsh now blocks []
    hadm hsome
  simp only [List.nil_append, List.length_nil] at hwalk
  rw [hwalk, chunkLoop_exhaust cfg gE oE lastB.lastAppliedL1Block hsh now blocks
    blocks.length b0 tl htl, if_neg hcond]

/-- C5 witness: one in-limit block below a five-block cap before the
timeout yields no chunk. -/
theorem c5_witness : proposeChunk cfgW5 gEw oEw orW (some 3) [wBlk] 120 = .ok none :=
  c5_amended cfgW5 gEw oEw orW (some 3) [wBlk] 120 wBlk wBlk 4007
    (by decide) (by decide) (by decide) (by decide) (by decide) (by decide) (by decide)

/-- C3 counterexample: under the claim's reading of "block k's addition
breaches a limit" — with the commit-gas estimate including the candidate —
block 1 is the first breaching block of `[bA, bB]` (its addition pushes the
over-estimated gas to 400 > 100 and block 0's addition breaches nothing),
yet the source admits both blocks and returns a two-block chunk via the
capacity trigger instead of a chunk of exactly the first 1 block. -/
theorem c3_counterexample :
    ¬ specBreachAt cfgC3 gEc3 oEw [bA, bB] 0 ∧
    specBreachAt cfgC3 gEc3 oEw [bA, bB] 1 ∧
    proposeChunk cfgC3 gEc3 oEw orW none [bA, bB] 0 =
      .ok (some ({ blocks := [bA, bB], lastAppliedL1Block := 9, l1BlockRangeHash := 9 },
                 { chunkTxNum := 2, chunkEstimateL1CommitGas := 10,
                   totalL1CommitCalldataSize := 2, maxTxConsumption := 2,
                   totalTxGasUsed := 2, chunkBlocksNum := 2 })) ∧
    ([bA, bB] : List WrappedBlock) ≠ [bA, bB].take 1 := by
  refine ⟨by decide, by decide, by decide, by decide⟩

/-- C3 (amended): whenever the loop has admitted `pre` (no earlier block
failed the source's admission check) and the next block `b` fails that
check — in which tx count, calldata and row consumption include `b` but the
over-estimated commit gas is computed on the admitted blocks *without*
`b` — with `pre` nonempty, `proposeChunk` returns a chunk of exactly the
blocks of `pre`, immediately: the result is the same for every current
time and irrespective of the max-block-count condition. -/
theorem c3_amended (cfg : ChunkProposerConfig) (gE : List WrappedBlock → Nat)
    (oE : Nat → Nat) (oracle : Nat → Nat → Option Nat) (parent : Option Nat)
    (pre : List WrappedBlock) (b : WrappedBlock) (rest : List WrappedBlock)
    (rc : List SubCircuit) (lastB : WrappedBlock) (hsh now : Nat)
    (hsomepre : ∀ x ∈ pre, x.rowConsumption.isSome)
    (hrc : b.rowConsumption = some rc)
    (hadm : admitsAll cfg gE oE [] pre)
    (hbr : breachOn cfg gE oE pre b)
    (hne : pre ≠ [])
    (hlast : (pre ++ b :: rest).getLast? = some lastB)
    (hor : oracle (l1BlockRangeHashFrom parent) lastB.lastAppliedL1Block = some hsh) :
    proposeChunk cfg gE oE oracle parent (pre ++ b :: rest) now =
      .ok (some ({ blocks := pre, lastAppliedL1Block := lastB.lastAppliedL1Block,
                   l1BlockRangeHash := hsh }, metricsOf gE pre)) := by
  simp only [proposeChunk, hlast, hor]
  rw [← mkState_nil gE]
  have hcut := chunkLoop_cut_walk cfg gE oE lastB.lastAppliedL1Block hsh now b rest rc
    hrc pre [] hadm hsomepre (by simpa using hbr) (by simpa using hne)
  simp only [List.nil_append, List.length_nil] at hcut
  rw [hcut]

/-- C3 witness: with a tx-count limit of 1, the second block fails the
check and the returned chunk is exactly the first block. -/
theorem c3_witness :
    proposeChunk cfgTx gEw oEw orW none ([bA] ++ bB :: []) 0 =
      .ok (some ({ blocks := [bA], lastAppliedL1Block := 9, l1BlockRangeHash := 9 },
                 metricsOf gEw [bA])) :=
  c3_amended cfgTx gEw oEw orW none [bA] bB [] [⟨"A", 1⟩] bB 9 0
    (by decide) (by decide) (by decide) (by decide) (by decide) (by decide) (by decide)

/-- C1 counterexample: the loop stops early after including only `bA`
(whose `lastAppliedL1Block` is 5), yet the returned chunk carries
`lastAppliedL1Block = 9` — the value of the last *fetched* block `bB` —
contradicting the claim that it equals the last *included* block's value. -/
theorem c1_counterexample :
    proposeChunk cfgTx gEw oEw orW none [bA, bB] 0 =
      .ok (some ({ blocks := [bA], lastAppliedL1Block := 9, l1BlockRangeHash := 9 },
                 { chunkTxNum := 1, chunkEstimateL1CommitGas := 0,
                   totalL1CommitCalldataSize := 1, maxTxConsumption := 1,
                   totalTxGasUsed := 1, chunkBlocksNum := 1 })) ∧
    bA.lastAppliedL1Block = 5 ∧ (9 : Nat) ≠ 5 := by
  refine ⟨by decide, by decide, by decide⟩

/-- C1 (amended): when the packing loop stops early at a block `b` after
admitting the nonempty prefix `pre`, the returned chunk's
`lastAppliedL1Block` equals the `lastAppliedL1Block` of the last *fetched*
block — the same height the range hash was resolved against up front — not
that of the last included block, and its `l1BlockRangeHash` is the hash the
oracle returned for the full fetch window. -/
theorem c1_amended (cfg : ChunkProposerConfig) (gE : List WrappedBlock → Nat)
    (oE : Nat → Nat) (oracle : Nat → Nat → Option Nat) (parent : Option Nat)
    (pre : List WrappedBlock) (b : WrappedBlock) (rest : List WrappedBlock)
    (rc : List SubCircuit) (lastB : WrappedBlock) (hsh now : Nat)
    (hsomepre : ∀ x ∈ pre, x.rowConsumption.isSome)
    (hrc : b.rowConsumption = some rc)
    (hadm : admitsAll cfg gE oE [] pre)
    (hbr : breachOn cfg gE oE pre b)
    (hne : pre ≠ [])
    (hlast : (pre ++ b :: rest).getLast? = some lastB)
    (hor : oracle (l1BlockRangeHashFrom parent) lastB.lastAppliedL1Block = some hsh) :
    ∃ c m, proposeChunk cfg gE oE oracle parent (pre ++ b :: rest) now =
        .ok (some (c, m)) ∧
      c.blocks = pre ∧ c.lastAppliedL1Block = lastB.lastAppliedL1Block ∧
      c.l1BlockRangeHash = hsh := by
  refine ⟨{ blocks := pre, lastAppliedL1Block := lastB.lastAppliedL1Block,
            l1BlockRangeHash := hsh }, metricsOf gE pre, ?_, rfl, rfl, rfl⟩
  simp only [proposeChunk, hlast, hor]
  rw [← mkState_nil gE]
  have hcut := chunkLoop_cut_walk cfg gE oE lastB.lastAppliedL1Block hsh now b rest rc
    hrc pre [] hadm hsomepre (by simpa using hbr) (by simpa using hne)
  simp only [List.nil_append, List.length_nil] at hcut
  rw [hcut]

/-- C1 witness: the early-stop scenario where only `bA` is included while
the chunk's `lastAppliedL1Block` and range hash follow the last fetched
block `bB`. -/
theorem c1_witness :
    ∃ c m, proposeChunk cfgTx gEw oEw orW none ([bA] ++ bB :: []) 0 =
        .ok (some (c, m)) ∧
      c.blocks = [bA] ∧ c.lastAppliedL1Block = bB.lastAppliedL1Block ∧
      c.l1BlockRangeHash = 9 :=
  c1_amended cfgTx gEw oEw orW none [bA] bB [] [⟨"A", 1⟩] bB 9 0
    (by decide) (by decide) (by decide) (by decide) (by decide) (by decide) (by decide)

/-- C2: the admission check's commit-gas total is *not* recomputed from the
prospective chunk including the candidate: the source computes
`chunk.EstimateL1CommitGas()` before appending the candidate block, so the
first block's own gas is checked against the empty chunk's estimate and
each later block's contribution is only seen one iteration late.  Concrete
run: with a 100-gas cap, an estimator charging 60 per block and multiplier
2, the first block of `[bA, bB]` already over-estimates to 120 > 100, yet
no first-block error is raised; instead `bA` is admitted and the cut at
`bB` returns a persisted chunk `[bA]` whose own over-estimated commit gas
(120) exceeds the cap. -/
theorem c2_gas_check_excludes_candidate :
    specBreachAt cfgC2 gEc2 oEw [bA, bB] 0 ∧
    oEw (gEc2 [bA]) > cfgC2.maxL1CommitGasPerChunk ∧
    proposeChunk cfgC2 gEc2 oEw orW none [bA, bB] 0 =
      .ok (some ({ blocks := [bA], lastAppliedL1Block := 9, l1BlockRangeHash := 9 },
                 { chunkTxNum := 1, chunkEstimateL1CommitGas := 0,
                   totalL1CommitCalldataSize := 1, maxTxConsumption := 1,
                   totalTxGasUsed := 1, chunkBlocksNum := 1 })) := by
  refine ⟨by decide, by decide, by decide⟩

/-- C4: a single candidate block whose own over-estimated commit gas (120)
exceeds the 100-gas cap does *not* make `proposeChunk` fail: because the
first-block check evaluates the estimate of the empty chunk, the block is
admitted and returned as a chunk, with no `firstBlockExceedsGasLimit`
error. -/
theorem c4_first_block_gas_not_enforced :
    oEw (gEc2 [bA]) > cfgC4.maxL1CommitGasPerChunk ∧
    specBreachAt cfgC4 gEc2 oEw [bA] 0 ∧
    proposeChunk cfgC4 gEc2 oEw orW none [bA] 0 =
      .ok (some ({ blocks := [bA], lastAppliedL1Block := 5, l1BlockRangeHash := 5 },
                 { chunkTxNum := 1, chunkEstimateL1CommitGas := 0,
                   totalL1CommitCalldataSize := 1, maxTxConsumption := 1,
                   totalTxGasUsed := 1, chunkBlocksNum := 1 })) := by
  refine ⟨by decide, by decide, by decide⟩

end ChunkProposer
